import Mathlib

/-!
Shallow embedding of the CloudFront image-CDN URL-rewrite function
(`src/url-rewrite/index.js`) and proofs of its specified properties.

Modelling conventions:
* JS strings are `String`; the `{value: ...}` wrappers of the CloudFront
  event are flattened, so `querystring` and `headers` are association
  lists `List (String × String)` in platform iteration order.
* JS `parseInt(v, 10)` is modelled by `jsParseInt`: skip leading
  whitespace, an optional single sign, then the longest ASCII-digit
  run; an empty digit run is NaN, modelled as `none`.  (The model covers
  the common whitespace characters; exotic Unicode space code points are
  out of scope, as are float-precision effects on astronomically long
  digit strings.)
* `toLowerCase` is modelled on the ASCII range by `lowerStr`.
* `encodeURIComponent` is modelled byte-for-byte: characters outside the
  unreserved set `A-Z a-z 0-9 - _ . ! ~ * ' ( )` are replaced by the
  uppercase `%XX` encoding of each of their UTF-8 bytes.
-/

namespace UrlRewrite

/-- ASCII lowercasing of one character (JS `toLowerCase` on ASCII). -/
def lowerChar (c : Char) : Char :=
  if 'A' ≤ c ∧ c ≤ 'Z' then Char.ofNat (c.toNat + 32) else c

/-- ASCII lowercasing of a string (JS `toLowerCase` on ASCII). -/
def lowerStr (s : String) : String :=
  String.mk (s.data.map lowerChar)

/-- Whitespace skipped by JS `parseInt` (common code points). -/
def isJsSpace (c : Char) : Bool :=
  c = ' ' || c = '\t' || c = '\n' || c = '\r' || c = '\x0b' || c = '\x0c'

/-- Value of a run of ASCII digits, base 10. -/
def digitsVal (l : List Char) : Nat :=
  l.foldl (fun a c => a * 10 + (c.toNat - '0'.toNat)) 0

/-- Model of JS `parseInt(s, 10)`: `none` is NaN. -/
def jsParseInt (s : String) : Option Int :=
  let cs := s.data.dropWhile (fun c => isJsSpace c)
  let sr : Int × List Char :=
    match cs with
    | [] => (1, [])
    | c :: t => if c = '-' then (-1, t) else if c = '+' then (1, t) else (1, c :: t)
  let ds := sr.2.takeWhile Char.isDigit
  if ds.isEmpty then none else some (sr.1 * (digitsVal ds : Int))

/-- Source `parsePositiveInt(value, max)`: parse as base-10
integer, `null` (`none`) if NaN or not positive, clamped to `max` when a
max is supplied. -/
def parsePositiveInt (value : String) (max : Option Int) : Option Int :=
  match jsParseInt value with
  | none => none
  | some parsed =>
    if parsed ≤ 0 then none
    else
      match max with
      | some m => some (min parsed m)
      | none => some parsed

/-- Characters `encodeURIComponent` leaves unescaped
(`A-Z a-z 0-9 - _ . ! ~ * ' ( )`; code point 39 is the apostrophe). -/
def uriUnreserved (c : Char) : Bool :=
  ('A' ≤ c && c ≤ 'Z') || ('a' ≤ c && c ≤ 'z') || ('0' ≤ c && c ≤ '9') ||
    c = '-' || c = '_' || c = '.' || c = '!' || c = '~' || c = '*' ||
    c = '(' || c = ')' || c.toNat = 39

/-- Uppercase hexadecimal digit for `n < 16`. -/
def hexDigitChar (n : Nat) : Char :=
  if n < 10 then Char.ofNat ('0'.toNat + n) else Char.ofNat ('A'.toNat + (n - 10))

/-- Percent escape `%XX` of one byte. -/
def percentByte (b : Nat) : List Char :=
  ['%', hexDigitChar (b / 16), hexDigitChar (b % 16)]

/-- UTF-8 bytes of a Unicode scalar value. -/
def utf8Bytes (c : Char) : List Nat :=
  let n := c.toNat
  if n < 128 then [n]
  else if n < 2048 then [192 + n / 64, 128 + n % 64]
  else if n < 65536 then [224 + n / 4096, 128 + n / 64 % 64, 128 + n % 64]
  else [240 + n / 262144, 128 + n / 4096 % 64, 128 + n / 64 % 64, 128 + n % 64]

/-- Encoding of one character under `encodeURIComponent`. -/
def encodeChar (c : Char) : List Char :=
  if uriUnreserved c then [c] else ((utf8Bytes c).map percentByte).flatten

/-- Model of JS `encodeURIComponent`. -/
def encodeURIComponent (s : String) : String :=
  String.mk ((s.data.map encodeChar).flatten)

/-- Substring test over character lists (JS `indexOf(needle) !== -1`). -/
def isInfixList (needle : List Char) : List Char → Bool
  | [] => needle.isEmpty
  | c :: t => needle.isPrefixOf (c :: t) || isInfixList needle t

/-- The CloudFront viewer request: `uri`, query string and headers as
association lists in platform iteration order (the `{value}` wrappers
are flattened). -/
structure Request where
  uri : String
  querystring : List (String × String)
  headers : List (String × String)
deriving DecidableEq

/-- The CloudFront event handed to the handler. -/
structure Event where
  request : Request
deriving DecidableEq

/-- Source constant `SUPPORTED_FORMATS`. -/
def SUPPORTED_FORMATS : List String :=
  ["auto", "jpeg", "webp", "avif", "png", "svg", "gif"]

/-- Source constant `MAX_DIMENSION`. -/
def MAX_DIMENSION : Int := 4000

/-- The `normalizedOperations` mapping: at most the four recognized keys. -/
structure NormalizedOps where
  format : Option String
  quality : Option String
  width : Option String
  height : Option String
deriving DecidableEq

/-- The empty `normalizedOperations` object. -/
def emptyOps : NormalizedOps := ⟨none, none, none, none⟩

/-- Source `getBestFormatFromAcceptHeader(headers)`: default to
jpeg when the accept header is missing or empty, webp when its value
contains the substring image/webp, jpeg otherwise. -/
def getBestFormatFromAcceptHeader (headers : List (String × String)) : String :=
  match headers.lookup "accept" with
  | none => "jpeg"
  | some acceptHeaderValue =>
    if acceptHeaderValue = "" then "jpeg"
    else if isInfixList ("image/webp".data) acceptHeaderValue.data then "webp"
    else "jpeg"

/-- One iteration of the `for (var operation in request.querystring)`
loop: the state is the pair (normalizedOperations, formatFromQuery). -/
def processEntry (st : NormalizedOps × Option String) (e : String × String) :
    NormalizedOps × Option String :=
  let ops := st.1
  let fmt := st.2
  let op := lowerStr e.1
  let value := e.2
  if op = "format" then
    if value ≠ "" ∧ SUPPORTED_FORMATS.contains (lowerStr value) = true then
      if lowerStr value = "auto" then (ops, none) else (ops, some (lowerStr value))
    else (ops, fmt)
  else if op = "width" then
    match parsePositiveInt value (some MAX_DIMENSION) with
    | some w => if w = 0 then (ops, fmt) else ({ ops with width := some (toString w) }, fmt)
    | none => (ops, fmt)
  else if op = "height" then
    match parsePositiveInt value (some MAX_DIMENSION) with
    | some h => if h = 0 then (ops, fmt) else ({ ops with height := some (toString h) }, fmt)
    | none => (ops, fmt)
  else if op = "quality" then
    match parsePositiveInt value (some 100) with
    | some q => if q = 0 then (ops, fmt) else ({ ops with quality := some (toString q) }, fmt)
    | none => (ops, fmt)
  else (ops, fmt)

/-- The whole query-string loop of the handler. -/
def processQuery (qs : List (String × String)) : NormalizedOps × Option String :=
  qs.foldl processEntry (emptyOps, none)

/-- Source line `var finalFormat = formatFromQuery || getBestFormatFromAcceptHeader(...)`
(JS `||` falls through on the empty string as well as on null). -/
def resolvedFormat (request : Request) : String :=
  match (processQuery request.querystring).2 with
  | some f => if f = "" then getBestFormatFromAcceptHeader request.headers else f
  | none => getBestFormatFromAcceptHeader request.headers

/-- The final `normalizedOperations` mapping of the handler, after
`normalizedOperations['format'] = finalFormat`. -/
def handlerOps (request : Request) : NormalizedOps :=
  { (processQuery request.querystring).1 with format := some (resolvedFormat request) }

/-- One `if (normalizedOperations.k) normalizedOperationsArray.push(...)`
statement: pushes `k=encodeURIComponent(v)` when the stored value is
truthy (present and nonempty). -/
def pushTruthy (key : String) (v : Option String) : List String :=
  match v with
  | some s => if s = "" then [] else [key ++ "=" ++ encodeURIComponent s]
  | none => []

/-- The `normalizedOperationsArray` built by the handler, in source
order: format, quality, width, height. -/
def operationsArray (ops : NormalizedOps) : List String :=
  pushTruthy "format" ops.format ++ pushTruthy "quality" ops.quality ++
    pushTruthy "width" ops.width ++ pushTruthy "height" ops.height

/-- Source `handler(event)`: rewrite the uri to
`<original>/<encodeURIComponent(joined operations)>`, clear the query
string, leave the headers alone. -/
def handler (event : Event) : Request :=
  let request := event.request
  { uri := request.uri ++ "/" ++
      encodeURIComponent (String.intercalate "," (operationsArray (handlerOps request))),
    querystring := [],
    headers := request.headers }

/-- Modelled from the spec (section 4 step 4): serialization of one
present key, with key and value each percent-encoded individually;
absence is plain absence of the mapping entry. -/
def specOptPair (k : String) (v : Option String) : List String :=
  match v with
  | some s => [encodeURIComponent k ++ "=" ++ encodeURIComponent s]
  | none => []

/-- Modelled from the spec (section 4 step 4): the operations path
segment, comma-separated pairs in the fixed order format, quality,
width, height, the joined segment percent-encoded again. -/
def specSegment (ops : NormalizedOps) : String :=
  encodeURIComponent (String.intercalate ","
    (specOptPair "format" ops.format ++ specOptPair "quality" ops.quality ++
      specOptPair "width" ops.width ++ specOptPair "height" ops.height))

/-- The values of the query entries whose lowercased name is `k`, in
iteration order. -/
def queryVals (qs : List (String × String)) (k : String) : List String :=
  (qs.filter (fun e => lowerStr e.1 = k)).map (fun e => e.2)

end UrlRewrite

namespace UrlRewrite

/-- What one loop iteration does to the stored width/height/quality
value for the matching key (JS `if (x) normalizedOperations[k] = x.toString()`). -/
def dimStep (bound : Int) (v : String) (old : Option String) : Option String :=
  match parsePositiveInt v (some bound) with
  | some n => if n = 0 then old else some (toString n)
  | none => old

/-- What one loop iteration does to `formatFromQuery` for a format entry. -/
def fmtStep (v : String) (old : Option String) : Option String :=
  if v ≠ "" ∧ SUPPORTED_FORMATS.contains (lowerStr v) = true then
    if lowerStr v = "auto" then none else some (lowerStr v)
  else old

lemma processEntry_eq (st : NormalizedOps × Option String) (e : String × String) :
    processEntry st e =
      if lowerStr e.1 = "format" then (st.1, fmtStep e.2 st.2)
      else if lowerStr e.1 = "width" then
        ({ st.1 with width := dimStep MAX_DIMENSION e.2 st.1.width }, st.2)
      else if lowerStr e.1 = "height" then
        ({ st.1 with height := dimStep MAX_DIMENSION e.2 st.1.height }, st.2)
      else if lowerStr e.1 = "quality" then
        ({ st.1 with quality := dimStep 100 e.2 st.1.quality }, st.2)
      else st := by
  rcases st with ⟨ops, fmt⟩
  simp only [processEntry, fmtStep, dimStep]
  split_ifs <;> try rfl
  all_goals (rcases hp : parsePositiveInt e.2 (some MAX_DIMENSION) with _ | n <;>
    rcases hq : parsePositiveInt e.2 (some 100) with _ | m <;>
    simp [hp, hq] <;> split_ifs <;> rfl)

end UrlRewrite

namespace UrlRewrite

lemma queryVals_nil (k : String) : queryVals [] k = [] := rfl

lemma queryVals_cons (e : String × String) (t : List (String × String)) (k : String) :
    queryVals (e :: t) k =
      if lowerStr e.1 = k then e.2 :: queryVals t k else queryVals t k := by
  by_cases h : lowerStr e.1 = k <;> simp [queryVals, List.filter_cons, h]

lemma foldl_proj {σ α : Type} (P : σ → α) (g : σ → String × String → σ)
    (f : String → α → α) (k : String)
    (hcomm : ∀ st e, P (g st e) = if lowerStr e.1 = k then f e.2 (P st) else P st) :
    ∀ (qs : List (String × String)) (st : σ),
      P (qs.foldl g st) = (queryVals qs k).foldl (fun a v => f v a) (P st) := by
  intro qs
  induction qs with
  | nil => intro st; rfl
  | cons e t ih =>
    intro st
    rw [List.foldl_cons, ih, queryVals_cons, hcomm]
    by_cases h : lowerStr e.1 = k <;> simp [h]

lemma processQuery_width (qs : List (String × String)) :
    (processQuery qs).1.width =
      (queryVals qs "width").foldl (fun a v => dimStep MAX_DIMENSION v a) none := by
  have h := foldl_proj (fun st => st.1.width) processEntry (dimStep MAX_DIMENSION) "width"
    (by
      intro st e
      rw [processEntry_eq]
      split_ifs <;> first | rfl | (exfalso; simp_all)) qs (emptyOps, none)
  exact h

lemma processQuery_height (qs : List (String × String)) :
    (processQuery qs).1.height =
      (queryVals qs "height").foldl (fun a v => dimStep MAX_DIMENSION v a) none := by
  have h := foldl_proj (fun st => st.1.height) processEntry (dimStep MAX_DIMENSION) "height"
    (by
      intro st e
      rw [processEntry_eq]
      split_ifs <;> first | rfl | (exfalso; simp_all)) qs (emptyOps, none)
  exact h

lemma processQuery_quality (qs : List (String × String)) :
    (processQuery qs).1.quality =
      (queryVals qs "quality").foldl (fun a v => dimStep 100 v a) none := by
  have h := foldl_proj (fun st => st.1.quality) processEntry (dimStep 100) "quality"
    (by
      intro st e
      rw [processEntry_eq]
      split_ifs <;> first | rfl | (exfalso; simp_all)) qs (emptyOps, none)
  exact h

lemma processQuery_fmt (qs : List (String × String)) :
    (processQuery qs).2 =
      (queryVals qs "format").foldl (fun a v => fmtStep v a) none := by
  have h := foldl_proj (fun st => st.2) processEntry fmtStep "format"
    (by
      intro st e
      rw [processEntry_eq]
      split_ifs <;> rfl) qs (emptyOps, none)
  exact h

end UrlRewrite

namespace UrlRewrite

lemma parsePositiveInt_pos (v : String) (b : Int) (hb : 0 < b) (n : Int)
    (h : parsePositiveInt v (some b) = some n) : 0 < n := by
  unfold parsePositiveInt at h
  rcases hj : jsParseInt v with _ | parsed <;> rw [hj] at h
  · exact absurd h (by simp)
  · by_cases hp : parsed ≤ 0
    · simp [hp] at h
    · simp [hp] at h
      subst h
      exact lt_min (lt_of_not_le hp) hb

lemma toDigitsCore_length (b : Nat) :
    ∀ (fuel n : Nat) (ds : List Char), ds.length ≤ (Nat.toDigitsCore b fuel n ds).length := by
  intro fuel
  induction fuel with
  | zero => intro n ds; simp [Nat.toDigitsCore]
  | succ f ih =>
    intro n ds
    simp only [Nat.toDigitsCore]
    split
    · simp
    · exact le_trans (by simp) (ih (n / b) (Nat.digitChar (n % b) :: ds))

lemma toDigits_ne_nil (b n : Nat) : Nat.toDigits b n ≠ [] := by
  unfold Nat.toDigits
  intro h
  have h1 : (1 : Nat) ≤ (Nat.toDigitsCore b (n + 1) n []).length := by
    simp only [Nat.toDigitsCore]
    split
    · simp
    · exact le_trans (by simp) (toDigitsCore_length b n (n / b) [Nat.digitChar (n % b)])
  rw [h] at h1
  simp at h1

lemma natRepr_ne_empty (n : Nat) : Nat.repr n ≠ "" := by
  unfold Nat.repr
  intro h
  have : (Nat.toDigits 10 n).asString.data = ("" : String).data := by rw [h]
  simp only [List.asString] at this
  exact toDigits_ne_nil 10 n this

lemma intToString_pos_ne_empty (n : Int) (h : 0 < n) : toString n ≠ "" := by
  rcases n with m | m
  · show Nat.repr m ≠ ""
    exact natRepr_ne_empty m
  · exact absurd h (by exact of_decide_eq_false rfl)

/-- Invariant of the stored width/height/quality strings: present only
as the decimal rendering of a positive integer. -/
def goodDim (a : Option String) : Prop :=
  ∀ s, a = some s → ∃ n : Int, 0 < n ∧ s = toString n

lemma dimFold_inv (b : Int) (hb : 0 < b) :
    ∀ (l : List String) (a : Option String), goodDim a →
      goodDim (l.foldl (fun a v => dimStep b v a) a) := by
  intro l
  induction l with
  | nil => intro a ha; exact ha
  | cons v t ih =>
    intro a ha
    rw [List.foldl_cons]
    apply ih
    unfold dimStep
    rcases hp : parsePositiveInt v (some b) with _ | n
    · exact ha
    · by_cases hn : n = 0
      · simp [hn]; exact ha
      · simp [hn]
        intro s hs
        exact ⟨n, parsePositiveInt_pos v b hb n hp, by simpa using hs.symm⟩

lemma supported_ne_empty (f : String) (hf : f ∈ SUPPORTED_FORMATS) : f ≠ "" := by
  have h : SUPPORTED_FORMATS.all (fun g => g ≠ "") = true := by decide
  rw [List.all_eq_true] at h
  simpa using h f hf

/-- Invariant of `formatFromQuery`: if set, it is a supported format
other than auto (in particular nonempty). -/
def goodFmt (a : Option String) : Prop :=
  ∀ f, a = some f → f ∈ SUPPORTED_FORMATS ∧ f ≠ "auto" ∧ f ≠ ""

lemma fmtFold_inv :
    ∀ (l : List String) (a : Option String), goodFmt a →
      goodFmt (l.foldl (fun a v => fmtStep v a) a) := by
  intro l
  induction l with
  | nil => intro a ha; exact ha
  | cons v t ih =>
    intro a ha
    rw [List.foldl_cons]
    apply ih
    unfold fmtStep
    by_cases hc : v ≠ "" ∧ SUPPORTED_FORMATS.contains (lowerStr v) = true
    · by_cases ha2 : lowerStr v = "auto"
      · rw [if_pos hc, if_pos ha2]
        intro f hf
        exact absurd hf (by simp)
      · rw [if_pos hc, if_neg ha2]
        intro f hf
        have hfv : f = lowerStr v := by simpa using hf.symm
        have hmem : lowerStr v ∈ SUPPORTED_FORMATS := by simpa using hc.2
        subst hfv
        exact ⟨hmem, ha2, supported_ne_empty _ hmem⟩
    · rw [if_neg hc]
      exact ha

end UrlRewrite

namespace UrlRewrite

lemma getBest_jpeg_or_webp (headers : List (String × String)) :
    getBestFormatFromAcceptHeader headers = "jpeg" ∨
      getBestFormatFromAcceptHeader headers = "webp" := by
  unfold getBestFormatFromAcceptHeader
  rcases headers.lookup "accept" with _ | v
  · exact Or.inl rfl
  · by_cases h1 : v = ""
    · simp [h1]
    · by_cases h2 : isInfixList ("image/webp".data) v.data
      · simp [h1, h2]
      · simp [h1, h2]

lemma processQuery_fmt_good (qs : List (String × String)) :
    goodFmt (processQuery qs).2 := by
  rw [processQuery_fmt]
  exact fmtFold_inv _ none (by intro f hf; exact absurd hf (by simp))

lemma processQuery_width_good (qs : List (String × String)) :
    goodDim (processQuery qs).1.width := by
  rw [processQuery_width]
  exact dimFold_inv MAX_DIMENSION (by decide) _ none (by intro s hs; exact absurd hs (by simp))

lemma processQuery_height_good (qs : List (String × String)) :
    goodDim (processQuery qs).1.height := by
  rw [processQuery_height]
  exact dimFold_inv MAX_DIMENSION (by decide) _ none (by intro s hs; exact absurd hs (by simp))

lemma processQuery_quality_good (qs : List (String × String)) :
    goodDim (processQuery qs).1.quality := by
  rw [processQuery_quality]
  exact dimFold_inv 100 (by decide) _ none (by intro s hs; exact absurd hs (by simp))

lemma resolvedFormat_cases (r : Request) :
    resolvedFormat r = getBestFormatFromAcceptHeader r.headers ∨
      ∃ f, (processQuery r.querystring).2 = some f ∧ f ≠ "" ∧ resolvedFormat r = f := by
  unfold resolvedFormat
  split
  · rename_i f h
    by_cases hf : f = ""
    · rw [if_pos hf]
      exact Or.inl rfl
    · rw [if_neg hf]
      exact Or.inr ⟨f, h, hf, rfl⟩
  · exact Or.inl rfl

lemma resolvedFormat_ne_empty (r : Request) : resolvedFormat r ≠ "" := by
  rcases resolvedFormat_cases r with h | ⟨f, _, hf, he⟩
  · rw [h]
    rcases getBest_jpeg_or_webp r.headers with h2 | h2 <;> rw [h2] <;> decide
  · rw [he]
    exact hf

lemma resolvedFormat_ne_auto (r : Request) : resolvedFormat r ≠ "auto" := by
  rcases resolvedFormat_cases r with h | ⟨f, hq, _, he⟩
  · rw [h]
    rcases getBest_jpeg_or_webp r.headers with h2 | h2 <;> rw [h2] <;> decide
  · rw [he]
    exact (processQuery_fmt_good r.querystring f hq).2.1

lemma resolvedFormat_supported (r : Request) :
    resolvedFormat r ∈ (["jpeg", "webp", "avif", "png", "svg", "gif"] : List String) := by
  rcases resolvedFormat_cases r with h | ⟨f, hq, _, he⟩
  · rw [h]
    rcases getBest_jpeg_or_webp r.headers with h2 | h2 <;> rw [h2] <;> decide
  · rw [he]
    have hg := processQuery_fmt_good r.querystring f hq
    have hmem := hg.1
    have hna := hg.2.1
    simp only [SUPPORTED_FORMATS, List.mem_cons, List.not_mem_nil, or_false] at hmem
    rcases hmem with h2 | h2 | h2 | h2 | h2 | h2 | h2 <;> subst h2 <;> simp_all

lemma handlerOps_width (r : Request) :
    (handlerOps r).width = (processQuery r.querystring).1.width := rfl

lemma handlerOps_height (r : Request) :
    (handlerOps r).height = (processQuery r.querystring).1.height := rfl

lemma handlerOps_quality (r : Request) :
    (handlerOps r).quality = (processQuery r.querystring).1.quality := rfl

lemma handlerOps_format (r : Request) :
    (handlerOps r).format = some (resolvedFormat r) := rfl

end UrlRewrite

namespace UrlRewrite

lemma pushTruthy_eq_specOptPair (key : String) (v : Option String)
    (hk : encodeURIComponent key = key) (hv : ∀ s, v = some s → s ≠ "") :
    pushTruthy key v = specOptPair key v := by
  rcases v with _ | s
  · rfl
  · have hs := hv s rfl
    show (if s = "" then [] else [key ++ "=" ++ encodeURIComponent s]) =
      [encodeURIComponent key ++ "=" ++ encodeURIComponent s]
    rw [if_neg hs, hk]

lemma goodDim_ne_empty (a : Option String) (h : goodDim a) :
    ∀ s, a = some s → s ≠ "" := by
  intro s hs
  rcases h s hs with ⟨n, hn, rfl⟩
  exact intToString_pos_ne_empty n hn

lemma operationsArray_eq_spec (r : Request) :
    operationsArray (handlerOps r) =
      specOptPair "format" (handlerOps r).format ++
        specOptPair "quality" (handlerOps r).quality ++
        specOptPair "width" (handlerOps r).width ++
        specOptPair "height" (handlerOps r).height := by
  unfold operationsArray
  rw [pushTruthy_eq_specOptPair "format" _ (by decide)
      (by rw [handlerOps_format]; intro s hs
          have : s = resolvedFormat r := by simpa using hs.symm
          rw [this]; exact resolvedFormat_ne_empty r),
    pushTruthy_eq_specOptPair "quality" _ (by decide)
      (by rw [handlerOps_quality]; exact goodDim_ne_empty _ (processQuery_quality_good r.querystring)),
    pushTruthy_eq_specOptPair "width" _ (by decide)
      (by rw [handlerOps_width]; exact goodDim_ne_empty _ (processQuery_width_good r.querystring)),
    pushTruthy_eq_specOptPair "height" _ (by decide)
      (by rw [handlerOps_height]; exact goodDim_ne_empty _ (processQuery_height_good r.querystring))]

lemma handler_unfold (ev : Event) :
    handler ev =
      ⟨ev.request.uri ++ "/" ++
          encodeURIComponent (String.intercalate "," (operationsArray (handlerOps ev.request))),
        [], ev.request.headers⟩ := rfl

end UrlRewrite

namespace UrlRewrite

lemma dimStep_char (b : Int) (hb : 0 < b) (v : String) :
    (∀ n : Int, jsParseInt v = some n → 1 ≤ n → n ≤ b →
      dimStep b v none = some (toString n)) ∧
    (∀ n : Int, jsParseInt v = some n → b < n → dimStep b v none = some (toString b)) ∧
    (jsParseInt v = none → dimStep b v none = none) ∧
    (∀ n : Int, jsParseInt v = some n → n ≤ 0 → dimStep b v none = none) := by
  refine ⟨?_, ?_, ?_, ?_⟩
  · intro n hj h1 h2
    have hn0 : ¬n ≤ 0 := by omega
    have hmin : min n b = n := min_eq_left h2
    unfold dimStep parsePositiveInt
    rw [hj]
    show (match (if n ≤ 0 then none else some (min n b)) with
      | some n => if n = 0 then none else some (toString n)
      | none => none) = some (toString n)
    rw [if_neg hn0]
    show (if min n b = 0 then none else some (toString (min n b))) = some (toString n)
    rw [hmin, if_neg (by omega)]
  · intro n hj hbn
    have hn0 : ¬n ≤ 0 := by omega
    have hmin : min n b = b := min_eq_right (le_of_lt hbn)
    unfold dimStep parsePositiveInt
    rw [hj]
    show (match (if n ≤ 0 then none else some (min n b)) with
      | some n => if n = 0 then none else some (toString n)
      | none => none) = some (toString b)
    rw [if_neg hn0]
    show (if min n b = 0 then none else some (toString (min n b))) = some (toString b)
    rw [hmin, if_neg (by omega)]
  · intro hj
    unfold dimStep parsePositiveInt
    rw [hj]
  · intro n hj hn
    unfold dimStep parsePositiveInt
    rw [hj]
    show (match (if n ≤ 0 then none else some (min n b)) with
      | some n => if n = 0 then none else some (toString n)
      | none => none) = none
    rw [if_pos hn]

end UrlRewrite

namespace UrlRewrite

/-- C1: for a request whose query string carries the width (resp. height,
quality) parameter once, a value parsing to an integer n with 1 ≤ n ≤ 4000
(resp. 100 for quality) is stored exactly as n; a value parsing above the
bound is clamped to the bound; a non-numeric value or one parsing to
n ≤ 0 leaves the key absent from the output operations mapping. -/
theorem dimension_quality_clamp (r : Request) (v : String) :
    (queryVals r.querystring "width" = [v] →
      ((∀ n : Int, jsParseInt v = some n → 1 ≤ n → n ≤ 4000 →
          (handlerOps r).width = some (toString n)) ∧
        (∀ n : Int, jsParseInt v = some n → 4000 < n → (handlerOps r).width = some "4000") ∧
        (jsParseInt v = none → (handlerOps r).width = none) ∧
        (∀ n : Int, jsParseInt v = some n → n ≤ 0 → (handlerOps r).width = none))) ∧
    (queryVals r.querystring "height" = [v] →
      ((∀ n : Int, jsParseInt v = some n → 1 ≤ n → n ≤ 4000 →
          (handlerOps r).height = some (toString n)) ∧
        (∀ n : Int, jsParseInt v = some n → 4000 < n → (handlerOps r).height = some "4000") ∧
        (jsParseInt v = none → (handlerOps r).height = none) ∧
        (∀ n : Int, jsParseInt v = some n → n ≤ 0 → (handlerOps r).height = none))) ∧
    (queryVals r.querystring "quality" = [v] →
      ((∀ n : Int, jsParseInt v = some n → 1 ≤ n → n ≤ 100 →
          (handlerOps r).quality = some (toString n)) ∧
        (∀ n : Int, jsParseInt v = some n → 100 < n → (handlerOps r).quality = some "100") ∧
        (jsParseInt v = none → (handlerOps r).quality = none) ∧
        (∀ n : Int, jsParseInt v = some n → n ≤ 0 → (handlerOps r).quality = none))) := by
  refine ⟨?_, ?_, ?_⟩
  · intro hq
    have hw : (handlerOps r).width = dimStep MAX_DIMENSION v none := by
      rw [handlerOps_width, processQuery_width, hq]
      rfl
    obtain ⟨hc1, hc2, hc3, hc4⟩ := dimStep_char MAX_DIMENSION (by decide) v
    exact ⟨fun n hj h1 h2 => by rw [hw]; exact hc1 n hj h1 h2,
      fun n hj h2 => by rw [hw, hc2 n hj h2]; decide,
      fun hj => by rw [hw]; exact hc3 hj,
      fun n hj hn => by rw [hw]; exact hc4 n hj hn⟩
  · intro hq
    have hw : (handlerOps r).height = dimStep MAX_DIMENSION v none := by
      rw [handlerOps_height, processQuery_height, hq]
      rfl
    obtain ⟨hc1, hc2, hc3, hc4⟩ := dimStep_char MAX_DIMENSION (by decide) v
    exact ⟨fun n hj h1 h2 => by rw [hw]; exact hc1 n hj h1 h2,
      fun n hj h2 => by rw [hw, hc2 n hj h2]; decide,
      fun hj => by rw [hw]; exact hc3 hj,
      fun n hj hn => by rw [hw]; exact hc4 n hj hn⟩
  · intro hq
    have hw : (handlerOps r).quality = dimStep 100 v none := by
      rw [handlerOps_quality, processQuery_quality, hq]
      rfl
    obtain ⟨hc1, hc2, hc3, hc4⟩ := dimStep_char 100 (by decide) v
    exact ⟨fun n hj h1 h2 => by rw [hw]; exact hc1 n hj h1 h2,
      fun n hj h2 => by rw [hw, hc2 n hj h2]; decide,
      fun hj => by rw [hw]; exact hc3 hj,
      fun n hj hn => by rw [hw]; exact hc4 n hj hn⟩

end UrlRewrite

namespace UrlRewrite

/-- C1 witness: on a concrete request, width 300 passes through, height
9999 is clamped to 4000, quality 0 is dropped. -/
theorem dimension_quality_clamp_witness :
    (handlerOps ⟨"/a", [("width", "300"), ("height", "9999"), ("quality", "0")], []⟩).width
        = some "300" ∧
      (handlerOps ⟨"/a", [("width", "300"), ("height", "9999"), ("quality", "0")], []⟩).height
        = some "4000" ∧
      (handlerOps ⟨"/a", [("width", "300"), ("height", "9999"), ("quality", "0")], []⟩).quality
        = none := by
  refine ⟨?_, ?_, ?_⟩
  · have h := ((dimension_quality_clamp
      ⟨"/a", [("width", "300"), ("height", "9999"), ("quality", "0")], []⟩ "300").1
      (by decide)).1 300 (by decide) (by decide) (by decide)
    exact h.trans (by decide)
  · exact ((dimension_quality_clamp
      ⟨"/a", [("width", "300"), ("height", "9999"), ("quality", "0")], []⟩ "9999").2.1
      (by decide)).2.1 9999 (by decide) (by decide)
  · exact ((dimension_quality_clamp
      ⟨"/a", [("width", "300"), ("height", "9999"), ("quality", "0")], []⟩ "0").2.2
      (by decide)).2.2.2 0 (by decide) (by decide)

/-- C2: the operations path segment appended by the handler is exactly the
spec-side serialization: comma-separated key=value pairs in the fixed
order format, quality, width, height, with absent keys omitted, format
always present, each key and value percent-encoded individually and the
joined segment percent-encoded once more. -/
theorem operations_segment_serialization (ev : Event) :
    (handlerOps ev.request).format = some (resolvedFormat ev.request) ∧
      (handler ev).uri = ev.request.uri ++ "/" ++ specSegment (handlerOps ev.request) := by
  refine ⟨rfl, ?_⟩
  rw [handler_unfold]
  show ev.request.uri ++ "/" ++
      encodeURIComponent (String.intercalate "," (operationsArray (handlerOps ev.request))) = _
  rw [operationsArray_eq_spec]
  rfl

/-- C3: the output request has uri equal to the original uri, a slash and
the percent-encoded operations token; the query string is cleared; the
headers pass through unchanged. -/
theorem request_frame_contract (ev : Event) :
    (handler ev).uri = ev.request.uri ++ "/" ++
        encodeURIComponent (String.intercalate "," (operationsArray (handlerOps ev.request))) ∧
      (handler ev).querystring = [] ∧ (handler ev).headers = ev.request.headers :=
  ⟨rfl, rfl, rfl⟩

/-- C4: when the query string carries the format parameter once with value
webp (any letter case), the resolved format is webp for every headers
value, so the query parameter wins over the Accept header. -/
theorem query_webp_wins (r : Request) (v : String)
    (hq : queryVals r.querystring "format" = [v]) (hv : lowerStr v = "webp") :
    resolvedFormat r = "webp" := by
  have hvne : v ≠ "" := by
    intro h
    rw [h] at hv
    exact absurd hv (by decide)
  have hfmt : (processQuery r.querystring).2 = fmtStep v none := by
    rw [processQuery_fmt, hq]
    rfl
  have hstep : fmtStep v none = some "webp" := by
    unfold fmtStep
    rw [hv]
    rw [if_pos ⟨hvne, by decide⟩, if_neg (by decide)]
  unfold resolvedFormat
  rw [hfmt, hstep]
  rfl

/-- C4 witness: format=WEBP overrides an Accept header with no webp. -/
theorem query_webp_wins_witness :
    resolvedFormat ⟨"/a", [("format", "WEBP")], [("accept", "text/html")]⟩ = "webp" :=
  query_webp_wins ⟨"/a", [("format", "WEBP")], [("accept", "text/html")]⟩ "WEBP"
    (by decide) (by decide)

end UrlRewrite

namespace UrlRewrite

/-- C5: the resolved format is never auto, and a format=auto query
parameter (any letter case, occurring once) makes the resolved format
fall back to Accept-header negotiation. -/
theorem auto_never_output (r : Request) :
    resolvedFormat r ≠ "auto" ∧
      (∀ v, queryVals r.querystring "format" = [v] → lowerStr v = "auto" →
        resolvedFormat r = getBestFormatFromAcceptHeader r.headers) := by
  refine ⟨resolvedFormat_ne_auto r, ?_⟩
  intro v hq hv
  have hfmt : (processQuery r.querystring).2 = fmtStep v none := by
    rw [processQuery_fmt, hq]
    rfl
  have hstep : fmtStep v none = none := by
    unfold fmtStep
    by_cases hc : v ≠ "" ∧ SUPPORTED_FORMATS.contains (lowerStr v) = true
    · rw [if_pos hc, if_pos hv]
    · rw [if_neg hc]
  unfold resolvedFormat
  rw [hfmt, hstep]

/-- C5 witness: format=AUTO with a webp-accepting client negotiates on the
Accept header. -/
theorem auto_never_output_witness :
    resolvedFormat ⟨"/a", [("format", "AUTO")], [("accept", "image/webp")]⟩ =
      getBestFormatFromAcceptHeader [("accept", "image/webp")] :=
  (auto_never_output ⟨"/a", [("format", "AUTO")], [("accept", "image/webp")]⟩).2 "AUTO"
    (by decide) (by decide)

/-- C6: the Accept-header negotiator returns jpeg when the accept header
is missing or empty, webp exactly when the header value contains the
substring image/webp, jpeg otherwise, and never any other value. -/
theorem accept_negotiator_contract (headers : List (String × String)) :
    (getBestFormatFromAcceptHeader headers = "jpeg" ∨
        getBestFormatFromAcceptHeader headers = "webp") ∧
      (headers.lookup "accept" = none → getBestFormatFromAcceptHeader headers = "jpeg") ∧
      (∀ v, headers.lookup "accept" = some v → v = "" →
        getBestFormatFromAcceptHeader headers = "jpeg") ∧
      (∀ v, headers.lookup "accept" = some v → v ≠ "" →
        (isInfixList ("image/webp".data) v.data = true →
          getBestFormatFromAcceptHeader headers = "webp") ∧
        (isInfixList ("image/webp".data) v.data = false →
          getBestFormatFromAcceptHeader headers = "jpeg")) := by
  refine ⟨getBest_jpeg_or_webp headers, ?_, ?_, ?_⟩
  · intro h
    unfold getBestFormatFromAcceptHeader
    rw [h]
  · intro v hv he
    unfold getBestFormatFromAcceptHeader
    rw [hv]
    show (if v = "" then "jpeg" else _) = "jpeg"
    rw [if_pos he]
  · intro v hv he
    constructor
    · intro hin
      unfold getBestFormatFromAcceptHeader
      rw [hv]
      show (if v = "" then "jpeg"
        else if isInfixList ("image/webp".data) v.data then "webp" else "jpeg") = "webp"
      rw [if_neg he, if_pos hin]
    · intro hin
      unfold getBestFormatFromAcceptHeader
      rw [hv]
      show (if v = "" then "jpeg"
        else if isInfixList ("image/webp".data) v.data then "webp" else "jpeg") = "jpeg"
      rw [if_neg he, if_neg (by rw [hin]; exact Bool.false_ne_true)]

/-- C6 witness: a concrete Accept header containing image/webp yields
webp, and a missing header yields jpeg. -/
theorem accept_negotiator_contract_witness :
    getBestFormatFromAcceptHeader [("accept", "text/html,image/webp")] = "webp" ∧
      getBestFormatFromAcceptHeader [] = "jpeg" :=
  ⟨((accept_negotiator_contract [("accept", "text/html,image/webp")]).2.2.2
      "text/html,image/webp" (by decide) (by decide)).1 (by decide),
    (accept_negotiator_contract []).2.1 (by decide)⟩

/-- C7: on every event the handler returns normally with a rewritten
request (original uri extended by one token, query string emptied,
headers kept), and the resolved format always degrades gracefully to one
of the supported concrete formats. -/
theorem handler_never_fails (ev : Event) :
    ∃ tok, handler ev = ⟨ev.request.uri ++ "/" ++ tok, [], ev.request.headers⟩ ∧
      resolvedFormat ev.request ∈ (["jpeg", "webp", "avif", "png", "svg", "gif"] : List String) :=
  ⟨encodeURIComponent (String.intercalate "," (operationsArray (handlerOps ev.request))),
    rfl, resolvedFormat_supported ev.request⟩

end UrlRewrite

namespace UrlRewrite

/-- C8 counterexample: on the input abc12 the parser returns null, not the
parsed value 12 — leading non-numeric garbage is rejected, because JS
parseInt yields NaN unless the digits come first. -/
theorem leading_garbage_rejected :
    parsePositiveInt "abc12" none = none ∧ parsePositiveInt "abc12" none ≠ some 12 := by
  decide

/-- C8 amended: the parser is lenient about trailing garbage only — a
string starting with any character that is not a digit, a sign or
whitespace parses to null; 12abc parses to 12; and with no bound
supplied every successfully parsed positive value passes through
unclamped. -/
theorem parse_leniency_amended (c : Char) (cs : List Char) (s : String) (n : Int) :
    (c.isDigit = false → isJsSpace c = false → c ≠ '+' → c ≠ '-' →
      parsePositiveInt (String.mk (c :: cs)) none = none) ∧
    (jsParseInt s = some n → 0 < n → parsePositiveInt s none = some n) ∧
    parsePositiveInt "12abc" none = some 12 := by
  refine ⟨?_, ?_, by decide⟩
  · intro h1 h2 h3 h4
    simp [parsePositiveInt, jsParseInt, List.dropWhile_cons, List.takeWhile_cons,
      h1, h2, h3, h4]
  · intro hj hn
    unfold parsePositiveInt
    rw [hj]
    show (if n ≤ 0 then none else some n) = some n
    rw [if_neg (by omega)]

/-- C8 witness: the letter x followed by nothing parses to null, and 77
parses to 77 unclamped. -/
theorem parse_leniency_amended_witness :
    parsePositiveInt (String.mk ['x']) none = none ∧
      parsePositiveInt "77" none = some 77 :=
  ⟨(parse_leniency_amended 'x' [] "77" 77).1 (by decide) (by decide) (by decide) (by decide),
    (parse_leniency_amended 'x' [] "77" 77).2.1 (by decide) (by decide)⟩

/-- C9: the spec's concrete example — path /img/cat.png with
width=300, height=9999, quality=0, format=png rewrites to
/img/cat.png/<percent-encoded format=png,width=300,height=4000>. -/
theorem concrete_rewrite_example :
    (handler ⟨⟨"/img/cat.png",
        [("width", "300"), ("height", "9999"), ("quality", "0"), ("format", "png")],
        []⟩⟩).uri =
      "/img/cat.png" ++ "/" ++ encodeURIComponent "format=png,width=300,height=4000" := by
  decide

/-- C10: the handler is deterministic — two events with the same uri,
query string entries and headers produce the same output request. -/
theorem handler_deterministic (a b : Event)
    (h1 : a.request.uri = b.request.uri)
    (h2 : a.request.querystring = b.request.querystring)
    (h3 : a.request.headers = b.request.headers) :
    handler a = handler b := by
  rcases a with ⟨⟨u1, q1, d1⟩⟩
  rcases b with ⟨⟨u2, q2, d2⟩⟩
  have e1 : u1 = u2 := h1
  have e2 : q1 = q2 := h2
  have e3 : d1 = d2 := h3
  subst e1
  subst e2
  subst e3
  rfl

/-- C10 witness: determinism applied at a concrete pair of equal events. -/
theorem handler_deterministic_witness :
    handler ⟨⟨"/a", [("width", "9")], [("accept", "image/webp")]⟩⟩ =
      handler ⟨⟨"/a", [("width", "9")], [("accept", "image/webp")]⟩⟩ :=
  handler_deterministic ⟨⟨"/a", [("width", "9")], [("accept", "image/webp")]⟩⟩
    ⟨⟨"/a", [("width", "9")], [("accept", "image/webp")]⟩⟩ rfl rfl rfl

end UrlRewrite
